import Mathlib

/-!
Verification of the deploykit-backend specification against a shallow
embedding of the repository's Rust sources.

Each section embeds the functions of one source module (named in the
section comment) and proves the corresponding claims about them.
-/

set_option maxRecDepth 4000

namespace Deploykit

/-! ## install/src/hostname.rs -/

/-- Embedding of Rust `u8::is_ascii_alphanumeric` as used on the bytes of the
hostname string (`b'0'..=b'9' | b'A'..=b'Z' | b'a'..=b'z'`). -/
def isAsciiAlphanumeric (c : Char) : Bool :=
  (('0' ≤ c && c ≤ '9') || ('A' ≤ c && c ≤ 'Z') || ('a' ≤ c && c ≤ 'z'))

/-- Embedding of `is_valid_hostname` (install/src/hostname.rs): reject the
empty string and strings starting with '-'; every character must be ASCII
alphanumeric or '-'. -/
def is_valid_hostname (s : List Char) : Bool :=
  if s.isEmpty || s.head? == some '-' then
    false
  else
    s.all fun c => isAsciiAlphanumeric c || c == '-'

/-- The language of the regex `^[A-Za-z0-9][A-Za-z0-9-]*$`: a non-empty
string whose first character is ASCII alphanumeric and whose remaining
characters are ASCII alphanumeric or '-'. -/
def hostnameRegexLang (s : List Char) : Prop :=
  ∃ c cs, s = c :: cs ∧ isAsciiAlphanumeric c = true ∧
    ∀ x ∈ cs, isAsciiAlphanumeric x = true ∨ x = '-'

/-- C8: `is_valid_hostname(s)` returns true for exactly the strings matching
`^[A-Za-z0-9][A-Za-z0-9-]*$`, i.e. for every non-empty string whose first
character is ASCII alphanumeric and whose remaining characters are ASCII
alphanumeric or '-', and false for every other string. -/
theorem is_valid_hostname_iff_regex (s : List Char) :
    is_valid_hostname s = true ↔ hostnameRegexLang s := by
  unfold is_valid_hostname hostnameRegexLang
  cases s with
  | nil => simp
  | cons c cs =>
    simp only [List.isEmpty_cons, List.head?_cons, Bool.false_or, List.all_cons]
    constructor
    · intro h
      split at h
      · exact absurd h (by simp)
      · rename_i hne
        simp only [beq_iff_eq, Option.some.injEq] at hne
        simp only [Bool.and_eq_true, Bool.or_eq_true, beq_iff_eq] at h
        refine ⟨c, cs, rfl, ?_, ?_⟩
        · rcases h.1 with h1 | h1
          · exact h1
          · exact absurd h1 hne
        · intro x hx
          have := h.2
          rw [List.all_eq_true] at this
          have := this x hx
          simpa using this
    · rintro ⟨c', cs', heq, hc, hrest⟩
      obtain ⟨rfl, rfl⟩ : c = c' ∧ cs = cs' := by
        injection heq with h1 h2; exact ⟨h1, h2⟩
      have hcdash : ¬(c = '-') := by
        intro h
        subst h
        simp [isAsciiAlphanumeric] at hc
      rw [if_neg (by simp [hcdash])]
      simp only [Bool.and_eq_true, Bool.or_eq_true, beq_iff_eq]
      refine ⟨Or.inl hc, ?_⟩
      rw [List.all_eq_true]
      intro x hx
      simpa using hrest x hx

/-! ## install/src/swap.rs and install/src/lib.rs: swapoff -/

/-- Embedding of the `SwapFile` policy enum (install/src/lib.rs). -/
inductive SwapFile where
  | Automatic : SwapFile
  | Custom : Nat → SwapFile
  | Disable : SwapFile
deriving DecidableEq, BEq, Repr

/-- Embedding of `swapoff` (install/src/swap.rs): when the swapfile does not
exist the function returns Ok without running any command; otherwise it runs
`swapoff` as a child process, whose success is an environment input. -/
def swapoff (swapfileExists : Bool) (cmdOk : Bool) : Except Unit Unit :=
  if !swapfileExists then
    Except.ok ()
  else if cmdOk then Except.ok () else Except.error ()

/-- One call to `swapoff` inside `swapoff_impl`: the environment reports
whether the i-th call succeeds. Returns `(calls, sleeps)` made by the
`while let Err(..)` loop starting at call index `i`; `fuel` counts how many
more failures may be retried before `retry == 5` breaks the loop. -/
def swapoffLoopGo (ok : Nat → Bool) : Nat → Nat → Nat × Nat
  | i, 0 => (i + 1, i)
  | i, fuel + 1 =>
    if ok i then (i + 1, i)
    else swapoffLoopGo ok (i + 1) fuel

/-- Embedding of `InstallConfig::swapoff_impl` (install/src/lib.rs): under the
guard `self.swapfile != Disable || self.swapfile != Custom(0)` it runs the
swapoff retry loop (`retry` from 1, break when `retry == 5` after a failure,
500 ms sleep between calls), then returns `Ok(true)` unconditionally.
Returns the result together with `(calls, sleeps)` performed. -/
def swapoff_impl (swapfile : SwapFile) (ok : Nat → Bool) :
    Except Unit Bool × (Nat × Nat) :=
  if swapfile != SwapFile.Disable || swapfile != SwapFile.Custom 0 then
    (Except.ok true, swapoffLoopGo ok 0 4)
  else
    (Except.ok true, (0, 0))

theorem swapoffLoopGo_calls_le (ok : Nat → Bool) (i fuel : Nat) :
    (swapoffLoopGo ok i fuel).1 ≤ i + fuel + 1 := by
  induction fuel generalizing i with
  | zero => simp [swapoffLoopGo]
  | succ n ih =>
    unfold swapoffLoopGo
    split
    · omega
    · have := ih (i + 1)
      omega

theorem swapoffLoopGo_calls_ge (ok : Nat → Bool) (i fuel : Nat) :
    i + 1 ≤ (swapoffLoopGo ok i fuel).1 := by
  induction fuel generalizing i with
  | zero => simp [swapoffLoopGo]
  | succ n ih =>
    unfold swapoffLoopGo
    split
    · omega
    · have := ih (i + 1)
      omega

theorem swapoffLoopGo_sleeps (ok : Nat → Bool) (i fuel : Nat) :
    (swapoffLoopGo ok i fuel).2 + 1 = (swapoffLoopGo ok i fuel).1 := by
  induction fuel generalizing i with
  | zero => simp [swapoffLoopGo]
  | succ n ih =>
    unfold swapoffLoopGo
    split
    · simp
    · exact ih (i + 1)

theorem swapoffLoopGo_first_success (ok : Nat → Bool) (i fuel : Nat)
    (h : ok i = true) : swapoffLoopGo ok i fuel = (i + 1, i) := by
  cases fuel with
  | zero => simp [swapoffLoopGo]
  | succ n => simp [swapoffLoopGo, h]

theorem swapoffLoopGo_all_fail (ok : Nat → Bool) (i fuel : Nat)
    (h : ∀ j, ok j = false) : swapoffLoopGo ok i fuel = (i + fuel + 1, i + fuel) := by
  induction fuel generalizing i with
  | zero => simp [swapoffLoopGo]
  | succ n ih =>
    rw [swapoffLoopGo, if_neg (by simp [h i]), ih (i + 1)]
    simp only [Prod.mk.injEq]
    omega

/-- C9: the SwapOff stage always returns success: for every swapfile policy
(Automatic, Custom and Disable alike) `swapoff_impl` attempts deactivation
(the guard disjunction is a tautology); `swapoff` is a no-op returning Ok
when the swapfile does not exist; the deactivation is attempted at most 5
times with one 500 ms sleep between consecutive attempts, stopping at the
first success; after the 5th failed attempt the loop gives up and the stage
still returns Ok — a swap deactivation failure can never abort the
installation. -/
theorem swapoff_impl_spec :
    (∀ sw ok, (swapoff_impl sw ok).1 = Except.ok true) ∧
    (∀ sw ok, 1 ≤ (swapoff_impl sw ok).2.1 ∧ (swapoff_impl sw ok).2.1 ≤ 5) ∧
    (∀ cmdOk, swapoff false cmdOk = Except.ok ()) ∧
    (∀ sw ok, ok 0 = true → (swapoff_impl sw ok).2 = (1, 0)) ∧
    (∀ sw ok, (∀ j, ok j = false) → (swapoff_impl sw ok).2 = (5, 4)) ∧
    (∀ sw ok, (swapoff_impl sw ok).2.2 + 1 = (swapoff_impl sw ok).2.1) := by
  have hguard : ∀ sw : SwapFile,
      (sw != SwapFile.Disable || sw != SwapFile.Custom 0) = true := by
    intro sw
    cases sw with
    | Automatic => rfl
    | Custom n => rfl
    | Disable => rfl
  refine ⟨?_, ?_, ?_, ?_, ?_, ?_⟩
  · intro sw ok
    simp [swapoff_impl, hguard sw]
  · intro sw ok
    rw [swapoff_impl, if_pos (hguard sw)]
    dsimp only
    have h1 := swapoffLoopGo_calls_ge ok 0 4
    have h2 := swapoffLoopGo_calls_le ok 0 4
    constructor <;> omega
  · intro cmdOk
    rfl
  · intro sw ok h
    rw [swapoff_impl, if_pos (hguard sw)]
    simpa using swapoffLoopGo_first_success ok 0 4 h
  · intro sw ok h
    rw [swapoff_impl, if_pos (hguard sw)]
    simpa using swapoffLoopGo_all_fail ok 0 4 h
  · intro sw ok
    rw [swapoff_impl, if_pos (hguard sw)]
    simpa using swapoffLoopGo_sleeps ok 0 4

/-- C9 witness: concrete run where every swapoff call fails — the stage still
returns Ok and exactly 5 calls with 4 sleeps were made. -/
theorem swapoff_impl_spec_witness :
    (swapoff_impl SwapFile.Automatic (fun _ => false)).1 = Except.ok true ∧
    (swapoff_impl SwapFile.Automatic (fun _ => false)).2 = (5, 4) :=
  ⟨swapoff_impl_spec.1 SwapFile.Automatic (fun _ => false),
   swapoff_impl_spec.2.2.2.2.1 SwapFile.Automatic (fun _ => false)
     (fun _ => rfl)⟩

/-! ## install/src/mount.rs -/

/-- A kernel-filesystem mount performed by `setup_files_mounts`: the source,
the mount point relative to the target root, and the filesystem type passed
to `mount(2)`. -/
structure MountAction where
  source : String
  point : String
  fstype : String
deriving DecidableEq, Repr

/-- The `EFIVARS_PATH` constant of install/src/mount.rs. -/
def EFIVARS_PATH : String := "sys/firmware/efi/efivars"

/-- The straight-line sequence of `mount_inner` calls in `setup_files_mounts`
(install/src/mount.rs): proc, sys, efivarfs (only when EFI-booted and not
mips64), dev (devtmpfs from udev), dev/pts (devpts), dev/shm (devpts in the
source), and the bind of /run/udev on run/udev (tmpfs). -/
def setupMountActions (isEfi mips64 : Bool) : List MountAction :=
  [⟨"proc", "proc", "proc"⟩, ⟨"sys", "sys", "sysfs"⟩] ++
    (if isEfi && !mips64 then [⟨"efivarfs", EFIVARS_PATH, "efivarfs"⟩] else []) ++
    [⟨"udev", "dev", "devtmpfs"⟩,
     ⟨"devpts", "dev/pts", "devpts"⟩,
     ⟨"shm", "dev/shm", "devpts"⟩,
     ⟨"/run/udev", "run/udev", "tmpfs"⟩]

/-- Runs a sequence of mounts with early return on the first failure (the
`?` operator after each `mount_inner` in the source); returns the overall
result and the list of mounts actually established. -/
def runMounts (ok : MountAction → Bool) : List MountAction → Except String Unit × List MountAction
  | [] => (Except.ok (), [])
  | a :: rest =>
    if ok a then
      let r := runMounts ok rest
      (r.1, a :: r.2)
    else (Except.error a.point, [])

/-- Embedding of `setup_files_mounts` (install/src/mount.rs). -/
def setup_files_mounts (isEfi mips64 : Bool) (ok : MountAction → Bool) :
    Except String Unit × List MountAction :=
  runMounts ok (setupMountActions isEfi mips64)

/-- The `mounts` array of `remove_files_mounts` after the `mounts.reverse()`
call. -/
def removeMountsList : List String :=
  ["proc", "sys", EFIVARS_PATH, "dev", "dev/pts", "dev/shm", "run/udev"].reverse

/-- The umount loop of `remove_files_mounts`: skip the efivarfs entry when
the host is mips64 or not EFI-booted, run one `umount` child process per
remaining point, early-return on the first failure. Returns the result and
the sequence of points that received an umount invocation. -/
def runUmounts (isEfi mips64 : Bool) (ok : String → Bool) :
    List String → Except String Unit × List String
  | [] => (Except.ok (), [])
  | p :: rest =>
    if (mips64 || !isEfi) && p == EFIVARS_PATH then runUmounts isEfi mips64 ok rest
    else if ok p then
      let r := runUmounts isEfi mips64 ok rest
      (r.1, p :: r.2)
    else (Except.error p, [p])

/-- Embedding of `remove_files_mounts` (install/src/mount.rs). -/
def remove_files_mounts (isEfi mips64 : Bool) (ok : String → Bool) :
    Except String Unit × List String :=
  runUmounts isEfi mips64 ok removeMountsList

/-- The sequence of mount points established by a fully successful
`setup_files_mounts`. -/
def setupSequence (isEfi mips64 : Bool) : List String :=
  (setupMountActions isEfi mips64).map MountAction.point

theorem runMounts_all_ok (ok : MountAction → Bool) (l : List MountAction)
    (h : ∀ a, ok a = true) : runMounts ok l = (Except.ok (), l) := by
  induction l with
  | nil => rfl
  | cons a rest ih => simp [runMounts, h a, ih]

/-- The effect of the `continue` in the umount loop: drop the efivarfs entry
when the host is mips64 or not EFI-booted. -/
def skipEfivars (isEfi mips64 : Bool) : List String → List String
  | [] => []
  | p :: rest =>
    if (mips64 || !isEfi) && p == EFIVARS_PATH then skipEfivars isEfi mips64 rest
    else p :: skipEfivars isEfi mips64 rest

theorem runUmounts_all_ok (isEfi mips64 : Bool) (ok : String → Bool)
    (l : List String) (h : ∀ p, ok p = true) :
    runUmounts isEfi mips64 ok l = (Except.ok (), skipEfivars isEfi mips64 l) := by
  induction l with
  | nil => rfl
  | cons p rest ih =>
    rw [runUmounts, skipEfivars]
    cases hc : ((mips64 || !isEfi) && p == EFIVARS_PATH)
    · simp [h p, ih]
    · simp [ih]

theorem runUmounts_sublist (isEfi mips64 : Bool) (ok : String → Bool)
    (l : List String) : ((runUmounts isEfi mips64 ok l).2).Sublist l := by
  induction l with
  | nil => simp [runUmounts]
  | cons p rest ih =>
    unfold runUmounts
    split
    · exact ih.cons p
    · split
      · exact ih.cons₂ p
      · simp

/-- C6: the sequence of mount points unmounted by `remove_files_mounts` is
exactly the strict reverse of the sequence mounted by `setup_files_mounts`
(run/udev, dev/shm, dev/pts, dev, efivarfs, sys, proc), the efivarfs entry
is present in both sequences or absent from both (depending on EFI boot and
mips64), and each mount point receives at most one umount invocation per
call — exactly one in a fully successful call. -/
theorem remove_files_mounts_reverse_of_setup :
    (∀ isEfi mips64 ok, (∀ a, ok a = true) →
       (setup_files_mounts isEfi mips64 ok).2 = setupMountActions isEfi mips64) ∧
    (∀ isEfi mips64 ok, (∀ p, ok p = true) →
       (remove_files_mounts isEfi mips64 ok).2 = (setupSequence isEfi mips64).reverse) ∧
    (∀ isEfi mips64,
       (EFIVARS_PATH ∈ setupSequence isEfi mips64 ↔ (isEfi = true ∧ mips64 = false)) ∧
       (EFIVARS_PATH ∈ (remove_files_mounts isEfi mips64 (fun _ => true)).2 ↔
         (isEfi = true ∧ mips64 = false))) ∧
    (∀ isEfi mips64 ok, ((remove_files_mounts isEfi mips64 ok).2).Nodup) := by
  have hrm : ∀ isEfi mips64 : Bool, ∀ ok : String → Bool, (∀ p, ok p = true) →
      (remove_files_mounts isEfi mips64 ok).2 = (setupSequence isEfi mips64).reverse := by
    intro isEfi mips64 ok h
    rw [remove_files_mounts, runUmounts_all_ok isEfi mips64 ok _ h]
    cases isEfi <;> cases mips64 <;> decide
  refine ⟨?_, hrm, ?_, ?_⟩
  · intro isEfi mips64 ok h
    rw [setup_files_mounts, runMounts_all_ok ok _ h]
  · intro isEfi mips64
    constructor
    · cases isEfi <;> cases mips64 <;> decide
    · rw [hrm isEfi mips64 (fun _ => true) (fun _ => rfl)]
      cases isEfi <;> cases mips64 <;> decide
  · intro isEfi mips64 ok
    have hsub := runUmounts_sublist isEfi mips64 ok removeMountsList
    have hnodup : removeMountsList.Nodup := by decide
    exact hnodup.sublist hsub

/-- C6 witness: on an EFI non-mips64 host with all umounts succeeding, the
umount sequence equals the reverse of the mount sequence. -/
theorem remove_files_mounts_reverse_of_setup_witness :
    (remove_files_mounts true false (fun _ => true)).2 =
      (setupSequence true false).reverse :=
  remove_files_mounts_reverse_of_setup.2.1 true false (fun _ => true)
    (fun _ => rfl)

/-! ## src/src/server.rs -/

/-- Embedding of `ProgressStatus` (src/src/server.rs); the atomics carried by
`Working` and the structured payload of `Error` are abstracted away from the
variants. -/
inductive ProgressStatus where
  | pending : ProgressStatus
  | working : ProgressStatus
  | errorPS : String → ProgressStatus
  | finish : ProgressStatus
deriving DecidableEq, Repr

/-- Embedding of `Message` (src/src/server.rs): the JSON envelope with
`result` tag `Ok` or `Error`. -/
inductive Message where
  | ok : String → Message
  | err : String → Message
deriving DecidableEq, Repr

/-- The mutable server state touched by `DeploykitServer::start_install`:
the progress status, the worker join handle, and the stored configuration
(abstracted to a number — the method never writes it). -/
structure ServerState where
  progress : ProgressStatus
  installThread : Option Nat
  config : Nat
deriving DecidableEq, Repr

/-- Embedding of `DeploykitServer::start_install` (src/src/server.rs): if the
stored progress status is `Working`, return the error envelope immediately;
otherwise run `start_install_inner` (whose spawned-thread handle or error is
an environment input), store the handle, set the status to `Working` and
return an ok envelope. The boolean records whether `start_install_inner`
(and hence a thread spawn) was invoked. -/
def startInstallMethod (st : ServerState) (inner : Except String Nat) :
    Message × ServerState × Bool :=
  match st.progress with
  | ProgressStatus.working => (Message.err "Another installation is working.", st, false)
  | _ =>
    match inner with
    | Except.error e => (Message.err e, st, true)
    | Except.ok j =>
      (Message.ok "",
       { st with installThread := some j, progress := ProgressStatus.working },
       true)

/-- C7: if the stored progress status is `Working`, any call to the
`start_install` RPC method returns an error envelope and neither spawns a
new installation thread nor modifies the stored configuration or the
progress status — so at most one installation is in flight at a time. -/
theorem start_install_rejects_when_working (st : ServerState)
    (inner : Except String Nat) (h : st.progress = ProgressStatus.working) :
    startInstallMethod st inner =
      (Message.err "Another installation is working.", st, false) := by
  unfold startInstallMethod
  rw [h]

/-- C7 witness: a concrete working-state call is rejected unchanged. -/
theorem start_install_rejects_when_working_witness :
    startInstallMethod ⟨ProgressStatus.working, some 7, 42⟩ (Except.ok 9) =
      (Message.err "Another installation is working.",
       ⟨ProgressStatus.working, some 7, 42⟩, false) :=
  start_install_rejects_when_working ⟨ProgressStatus.working, some 7, 42⟩
    (Except.ok 9) rfl

/-- One poll of the monitor loop in `start_install_inner`
(src/src/server.rs): the cancel-flag value read and whether
`install_thread.is_finished()` returned true. -/
structure Obs where
  cancel : Bool
  finished : Bool
deriving DecidableEq, Repr

/-- Whether the cancel flag is observed set at some poll up to and including
the first poll that sees the install thread finished. -/
def cancelObserved : List Obs → Bool
  | [] => false
  | o :: rest => o.cancel || (!o.finished && cancelObserved rest)

/-- Embedding of the monitor loop of `start_install_inner`
(src/src/server.rs): `is_cancel` latches the cancel flag; on the first poll
that sees the install thread finished, the cancel branch runs `exit_env`,
clears the cancel flag and stores `Pending`; otherwise the status left by
the install thread (`Error` stays, anything else becomes `Finish`) is kept.
Returns the final progress status and cancel-flag value, or `none` when the
poll trace ends before the thread finishes. -/
def finishStatus (psFin : ProgressStatus) : ProgressStatus :=
  match psFin with
  | ProgressStatus.errorPS e => ProgressStatus.errorPS e
  | _ => ProgressStatus.finish

def monitorLoop (psFin : ProgressStatus) : Bool → List Obs → Option (ProgressStatus × Bool)
  | _, [] => none
  | ic, o :: rest =>
    let ic2 := ic || o.cancel
    if o.finished then
      if ic2 then some (ProgressStatus.pending, false)
      else some (finishStatus psFin, o.cancel)
    else monitorLoop psFin ic2 rest

theorem finishStatus_ne_pending (psFin : ProgressStatus) :
    finishStatus psFin ≠ ProgressStatus.pending := by
  cases psFin <;> simp [finishStatus]

theorem monitorLoop_cancel_aux (psFin : ProgressStatus) (obs : List Obs) :
    ∀ ic ps flag, monitorLoop psFin ic obs = some (ps, flag) →
      ((ic || cancelObserved obs) = true → ps = ProgressStatus.pending ∧ flag = false) ∧
      (ps = ProgressStatus.pending →
        (ic || cancelObserved obs) = true ∧ flag = false) := by
  induction obs with
  | nil => intro ic ps flag h; exact absurd h (by simp [monitorLoop])
  | cons o rest ih =>
    intro ic ps flag h
    rw [monitorLoop] at h
    by_cases hfin : o.finished = true
    · rw [if_pos hfin] at h
      have hobs : cancelObserved (o :: rest) = o.cancel := by
        simp [cancelObserved, hfin]
      by_cases hic : (ic || o.cancel) = true
      · rw [if_pos hic] at h
        injection h with h
        injection h with h1 h2
        subst h1; subst h2
        constructor
        · intro _; exact ⟨rfl, rfl⟩
        · intro _
          constructor
          · rw [hobs]; exact hic
          · rfl
      · rw [if_neg hic] at h
        have hps : ps ≠ ProgressStatus.pending := by
          intro hp
          subst hp
          injection h with h
          injection h with h1 h2
          exact finishStatus_ne_pending psFin h1
        constructor
        · intro hc
          rw [hobs] at hc
          exact absurd hc hic
        · intro hp; exact absurd hp hps
    · rw [if_neg hfin] at h
      have hobs : cancelObserved (o :: rest) = (o.cancel || cancelObserved rest) := by
        simp [cancelObserved, hfin]
      have := ih (ic || o.cancel) ps flag h
      rw [hobs, ← Bool.or_assoc]
      exact this

/-- C4: for every installation run in which the shared cancel flag is
observed set at some monitor poll no later than the poll that sees the
install thread finished, the final progress status is `Pending` — never
`Error` and never `Finish` — and the cancel flag is cleared; conversely the
status returns to `Pending` only on such a cancelled run, and whenever it
does the cancel flag is false. -/
theorem monitor_cancel_yields_pending (psFin : ProgressStatus) (obs : List Obs)
    (ps : ProgressStatus) (flag : Bool)
    (h : monitorLoop psFin false obs = some (ps, flag)) :
    (cancelObserved obs = true → ps = ProgressStatus.pending ∧ flag = false) ∧
    (ps = ProgressStatus.pending → cancelObserved obs = true ∧ flag = false) := by
  have := monitorLoop_cancel_aux psFin obs false ps flag h
  simpa using this

/-- C4 witness: the install thread failed (status `Error`), but cancel was
observed first — the final status is `Pending` with the flag cleared. -/
theorem monitor_cancel_yields_pending_witness :
    (ProgressStatus.pending = ProgressStatus.pending ∧ false = false) ∧
    cancelObserved [⟨true, false⟩, ⟨false, true⟩] = true :=
  ⟨(monitor_cancel_yields_pending (ProgressStatus.errorPS "boom")
      [⟨true, false⟩, ⟨false, true⟩] ProgressStatus.pending false rfl).1 rfl,
   rfl⟩

/-! ## install/src/lib.rs: the stage loop of `InstallConfig::start_install` -/

/-- Embedding of `InstallationStage` (install/src/lib.rs). -/
inductive InstallationStage where
  | SetupPartition | DownloadSquashfs | ExtractSquashfs | GenerateFstab
  | Chroot | Dracut | InstallGrub | GenerateSshKey | ConfigureSystem
  | EscapeChroot | SwapOff | UmountInnerPath | UmountEFIPath | UmountRootPath
  | Done
deriving DecidableEq, Repr

/-- Embedding of `InstallationStage::get_next_stage`. -/
def getNextStage : InstallationStage → InstallationStage
  | .SetupPartition => .DownloadSquashfs
  | .DownloadSquashfs => .ExtractSquashfs
  | .ExtractSquashfs => .GenerateFstab
  | .GenerateFstab => .Chroot
  | .Chroot => .Dracut
  | .Dracut => .InstallGrub
  | .InstallGrub => .GenerateSshKey
  | .GenerateSshKey => .ConfigureSystem
  | .ConfigureSystem => .EscapeChroot
  | .EscapeChroot => .SwapOff
  | .SwapOff => .UmountInnerPath
  | .UmountInnerPath => .UmountEFIPath
  | .UmountEFIPath => .UmountRootPath
  | .UmountRootPath => .Done
  | .Done => .Done

/-- The three stages singled out by the `matches!` checks in the error branch
of the stage loop. -/
def isUmountStage : InstallationStage → Bool
  | .UmountInnerPath => true
  | .UmountEFIPath => true
  | .UmountRootPath => true
  | _ => false

/-- The result a stage body hands back to the loop: `Ok(true)` (advance),
`Ok(false)` (cancellation observed, break) or `Err(e)` (errors are
identified by a numeric tag). -/
inductive Outcome where
  | okTrue : Outcome
  | okFalse : Outcome
  | errOut : Nat → Outcome
deriving DecidableEq, Repr

/-- Observable events of one run of the stage loop: a stage attempt with its
outcome, the 10-second wait of the retry branch, and the `umount_all`
fallback. -/
inductive Ev where
  | attempt : InstallationStage → Outcome → Ev
  | sleepSecs : Nat → Ev
  | umountAllEv : Ev
deriving DecidableEq, Repr

/-- The value `start_install` returns: `Ok(b)`, `Err(tag)`, or the poll trace
ran out before the loop ended. -/
inductive FinalRes where
  | retOk : Bool → FinalRes
  | retErr : Nat → FinalRes
  | exhausted : FinalRes
deriving DecidableEq, Repr

/-- Embedding of the stage loop of `InstallConfig::start_install`
(install/src/lib.rs): the trace lists the outcome of each successive stage
execution; `r` is the `error_retry` variable, initialised to 1 outside the
loop and never reset. On `Ok(true)` advance to the next stage; on `Ok(_)`
break (the function then returns `Ok(true)`); on `Err`, when `error_retry ==
3` either fall back to `umount_all` and return `Ok(true)` (unmount stages)
or return the error, and otherwise increment the counter, sleep 10 s and
re-run the same stage. -/
def runFrom : InstallationStage → Nat → List Outcome → FinalRes × List Ev
  | .Done, _, _ => (.retOk true, [])
  | _, _, [] => (.exhausted, [])
  | s, r, o :: rest =>
    match o with
    | .okTrue =>
      let n := runFrom (getNextStage s) r rest
      (n.1, .attempt s .okTrue :: n.2)
    | .okFalse => (.retOk true, [.attempt s .okFalse])
    | .errOut tag =>
      if r == 3 then
        if isUmountStage s then
          (.retOk true, [.attempt s (.errOut tag), .umountAllEv])
        else (.retErr tag, [.attempt s (.errOut tag)])
      else
        let n := runFrom s (r + 1) rest
        (n.1, .attempt s (.errOut tag) :: .sleepSecs 10 :: n.2)

/-- Embedding of `start_install`: run from `SetupPartition` with
`error_retry = 1`. -/
def start_install (t : List Outcome) : FinalRes × List Ev :=
  runFrom .SetupPartition 1 t

/-- Number of errored stage attempts recorded in an event log. -/
def errAttempts (l : List Ev) : Nat :=
  l.countP fun e =>
    match e with
    | .attempt _ (.errOut _) => true
    | _ => false

/-- Number of attempts of a given stage recorded in an event log. -/
def stageAttempts (s : InstallationStage) (l : List Ev) : Nat :=
  l.countP fun e =>
    match e with
    | .attempt s2 _ => s2 == s
    | _ => false

theorem runFrom_cons (s : InstallationStage) (hs : s ≠ .Done) (r : Nat)
    (o : Outcome) (rest : List Outcome) :
    runFrom s r (o :: rest) =
      (match o with
       | .okTrue =>
         let n := runFrom (getNextStage s) r rest
         (n.1, .attempt s .okTrue :: n.2)
       | .okFalse => (.retOk true, [.attempt s .okFalse])
       | .errOut tag =>
         if r == 3 then
           if isUmountStage s then
             (.retOk true, [.attempt s (.errOut tag), .umountAllEv])
           else (.retErr tag, [.attempt s (.errOut tag)])
         else
           let n := runFrom s (r + 1) rest
           (n.1, .attempt s (.errOut tag) :: .sleepSecs 10 :: n.2)) := by
  cases s <;> first | exact absurd rfl hs | rfl

theorem runFrom_retErr_budget (t : List Outcome) :
    ∀ s r tag, (runFrom s r t).1 = .retErr tag →
      errAttempts (runFrom s r t).2 + r = 4 := by
  induction t with
  | nil =>
    intro s r tag h
    cases s <;> simp [runFrom] at h
  | cons o rest ih =>
    intro s r tag h
    by_cases hs : s = .Done
    · subst hs; simp [runFrom] at h
    · rw [runFrom_cons s hs] at h ⊢
      cases o with
      | okTrue =>
        have := ih (getNextStage s) r tag h
        simpa [errAttempts] using this
      | okFalse => simp at h
      | errOut tag2 =>
        dsimp only at h ⊢
        by_cases hr : (r == 3) = true
        · rw [if_pos hr] at h ⊢
          by_cases hu : isUmountStage s = true
          · rw [if_pos hu] at h; simp at h
          · rw [if_neg hu] at h ⊢
            simp only [errAttempts, List.countP_cons] at *
            have : r = 3 := by simpa using hr
            simp [this]
        · rw [if_neg hr] at h ⊢
          have := ih s (r + 1) tag h
          simp [errAttempts, List.countP_cons] at this ⊢
          omega

theorem runFrom_umountAll_ok (t : List Outcome) :
    ∀ s r, Ev.umountAllEv ∈ (runFrom s r t).2 →
      (runFrom s r t).1 = .retOk true := by
  induction t with
  | nil =>
    intro s r h
    cases s <;> simp [runFrom] at h ⊢
  | cons o rest ih =>
    intro s r h
    by_cases hs : s = .Done
    · subst hs; simp [runFrom]
    · rw [runFrom_cons s hs] at h ⊢
      cases o with
      | okTrue =>
        simp only [List.mem_cons] at h
        rcases h with h | h
        · exact absurd h (by simp)
        · exact ih (getNextStage s) r h
      | okFalse => simp at h
      | errOut tag2 =>
        dsimp only at h ⊢
        by_cases hr : (r == 3) = true
        · rw [if_pos hr] at h ⊢
          by_cases hu : isUmountStage s = true
          · rw [if_pos hu]
          · rw [if_neg hu] at h; simp at h
        · rw [if_neg hr] at h ⊢
          simp only [List.mem_cons] at h
          rcases h with h | h
          · exact absurd h (by simp)
          rcases h with h | h
          · exact absurd h (by simp)
          · exact ih s (r + 1) h

/-- C3 counterexample: with the trace `SetupPartition` errors twice then
succeeds, and `DownloadSquashfs` errors once, the run surfaces the
`DownloadSquashfs` error even though that stage was attempted exactly once —
refuting "each individual stage is given up to 3 attempts". -/
theorem start_install_retry_not_per_stage :
    (start_install [.errOut 1, .errOut 1, .okTrue, .errOut 2]).1 =
        FinalRes.retErr 2 ∧
    stageAttempts .DownloadSquashfs
        (start_install [.errOut 1, .errOut 1, .okTrue, .errOut 2]).2 = 1 ∧
    (1 : Nat) < 3 := by
  refine ⟨rfl, ?_, by omega⟩
  decide

/-- C3 (amended): the retry budget is shared by the whole run — the
`error_retry` counter starts at 1, is never reset on success, and the run
tolerates at most 2 errored attempts in total. When a stage errors and the
counter is below 3 the orchestrator waits 10 s and re-executes that same
stage with the counter incremented; when the counter has reached 3, an
unmount stage falls back to `umount_all` and the run reports success, while
any other stage surfaces that error; consequently an error is surfaced only
when the run's event log contains exactly 3 errored attempts, and the
`umount_all` fallback always ends in a successful return. -/
theorem start_install_global_retry_budget :
    (∀ t tag, (start_install t).1 = .retErr tag →
       errAttempts (start_install t).2 = 3) ∧
    (∀ s r tag rest, s ≠ .Done → (r == 3) = false →
       runFrom s r (.errOut tag :: rest) =
         ((runFrom s (r + 1) rest).1,
          .attempt s (.errOut tag) :: .sleepSecs 10 :: (runFrom s (r + 1) rest).2)) ∧
    (∀ s tag rest, s ≠ .Done → isUmountStage s = true →
       runFrom s 3 (.errOut tag :: rest) =
         (.retOk true, [.attempt s (.errOut tag), .umountAllEv])) ∧
    (∀ s tag rest, s ≠ .Done → isUmountStage s = false →
       runFrom s 3 (.errOut tag :: rest) =
         (.retErr tag, [.attempt s (.errOut tag)])) ∧
    (∀ t s r, Ev.umountAllEv ∈ (runFrom s r t).2 →
       (runFrom s r t).1 = .retOk true) := by
  refine ⟨?_, ?_, ?_, ?_, ?_⟩
  · intro t tag h
    rw [start_install] at h ⊢
    have := runFrom_retErr_budget t .SetupPartition 1 tag h
    omega
  · intro s r tag rest hs hr
    cases s <;> first | exact absurd rfl hs | simp [runFrom, hr]
  · intro s tag rest hs hu
    cases s <;> simp_all [runFrom, isUmountStage]
  · intro s tag rest hs hu
    cases s <;> simp_all [runFrom, isUmountStage]
  · intro t s r
    exact runFrom_umountAll_ok t s r

/-- C3 witness: a run of three straight `SetupPartition` errors surfaces the
error with exactly 3 errored attempts logged; an `UmountRootPath` error on
an exhausted budget falls back to `umount_all` and returns success. -/
theorem start_install_global_retry_budget_witness :
    errAttempts (start_install [.errOut 5, .errOut 5, .errOut 5]).2 = 3 ∧
    runFrom .UmountRootPath 3 [.errOut 9] =
      (.retOk true, [.attempt .UmountRootPath (.errOut 9), .umountAllEv]) :=
  ⟨start_install_global_retry_budget.1 [.errOut 5, .errOut 5, .errOut 5] 5 rfl,
   start_install_global_retry_budget.2.2.1 .UmountRootPath 9 []
     (by decide) rfl⟩

/-! ## install/src/user.rs: `set_full_name` -/

/-- Embedding of `PasswdIllegalKind` (install/src/error.rs): which field was
missing when a passwd line was parsed. -/
inductive PasswdIllegalKind where
  | Username | Time | Uid | Gid | Fullname | Home | LoginShell
deriving DecidableEq, Repr

/-- The two `InstallError` variants `set_full_name` can produce. -/
inductive UserError where
  | FullNameIllegal : List Char → UserError
  | PasswdIllegal : PasswdIllegalKind → UserError
deriving DecidableEq, Repr

/-- Embedding of the `Passwd` record (install/src/user.rs). Strings are
modelled as character lists. -/
structure Passwd where
  username : List Char
  time : List Char
  uid : List Char
  gid : List Char
  fullname : List Char
  home : List Char
  login_shell : List Char
deriving DecidableEq, Repr

/-- Rust `char::is_whitespace`, as used by `str::trim`: the Unicode
White_Space property — U+0009..U+000D, U+0020, U+0085, U+00A0, U+1680,
U+2000..U+200A, U+2028, U+2029, U+202F, U+205F, U+3000. -/
def isRustWhitespace (c : Char) : Bool :=
  (0x09 ≤ c.toNat && c.toNat ≤ 0x0D) || c.toNat == 0x20 || c.toNat == 0x85 ||
    c.toNat == 0xA0 || c.toNat == 0x1680 ||
    (0x2000 ≤ c.toNat && c.toNat ≤ 0x200A) ||
    c.toNat == 0x2028 || c.toNat == 0x2029 || c.toNat == 0x202F ||
    c.toNat == 0x205F || c.toNat == 0x3000

/-- Rust `str::trim(..).is_empty()`: the line consists of (Unicode)
whitespace only. -/
def isBlank (l : List Char) : Bool := l.all isRustWhitespace

/-- The seven `i_split.next()` calls of the parsing loop in `set_full_name`:
take the first seven colon-separated fields, or fail with the kind of the
first missing field. -/
def parsePasswdLine (l : List Char) : Except UserError Passwd :=
  match l.splitOn ':' with
  | u :: t :: uid :: gid :: fname :: home :: shell :: _ =>
      Except.ok ⟨u, t, uid, gid, fname, home, shell⟩
  | [] => Except.error (.PasswdIllegal .Username)
  | [_] => Except.error (.PasswdIllegal .Time)
  | [_, _] => Except.error (.PasswdIllegal .Uid)
  | [_, _, _] => Except.error (.PasswdIllegal .Gid)
  | [_, _, _, _] => Except.error (.PasswdIllegal .Fullname)
  | [_, _, _, _, _] => Except.error (.PasswdIllegal .Home)
  | [_, _, _, _, _, _] => Except.error (.PasswdIllegal .LoginShell)

/-- The `for i in passwd` loop of `set_full_name`: skip blank lines, parse
every other line, stop at the first parse error. -/
def collectPasswd : List (List Char) → Except UserError (List Passwd)
  | [] => Except.ok []
  | l :: rest =>
    if isBlank l then collectPasswd rest
    else
      match parsePasswdLine l with
      | Except.error e => Except.error e
      | Except.ok p =>
        match collectPasswd rest with
        | Except.error e => Except.error e
        | Except.ok v => Except.ok (p :: v)

/-- The mutation pass of `set_full_name`: records whose username matches get
the new full name. -/
def mutateRec (fn u : List Char) (p : Passwd) : Passwd :=
  if p.username == u then { p with fullname := fn } else p

/-- The output line built for one record: the seven fields joined with ':'
plus a newline. -/
def entryChars (p : Passwd) : List Char :=
  List.intercalate [':']
    [p.username, p.time, p.uid, p.gid, p.fullname, p.home, p.login_shell] ++ ['\n']

/-- Embedding of `set_full_name` (install/src/user.rs). -/
def set_full_name (fn u : List Char) (passwd : List (List Char)) :
    Except UserError (List Char) :=
  if fn.contains ':' || fn.contains '\n' then
    Except.error (.FullNameIllegal fn)
  else
    match collectPasswd passwd with
    | Except.error e => Except.error e
    | Except.ok v =>
      Except.ok (((v.map (mutateRec fn u)).map entryChars).foldl (· ++ ·) [])

/-- What one input line contributes to the output, stated from the spec's
point of view: a 7-field line whose first field is the username gets its 5th
field replaced; any other 7-field line is reproduced character-for-character
(with its newline); used only on 7-field lines. -/
def rewriteLine (fn u : List Char) (l : List Char) : List Char :=
  match l.splitOn ':' with
  | a :: b :: c :: d :: _e :: f :: g :: _ =>
    if a == u then List.intercalate [':'] [a, b, c, d, fn, f, g] ++ ['\n']
    else l ++ ['\n']
  | _ => []

theorem foldl_append_eq_flatten (L : List (List Char)) :
    ∀ acc : List Char, L.foldl (· ++ ·) acc = acc ++ L.flatten := by
  induction L with
  | nil => intro acc; simp
  | cons x rest ih =>
    intro acc
    simp [List.foldl_cons, ih (acc ++ x)]

theorem exists_seven {α : Type} (L : List α) (h : L.length = 7) :
    ∃ a b c d e f g, L = [a, b, c, d, e, f, g] := by
  rcases L with _ | ⟨a, _ | ⟨b, _ | ⟨c, _ | ⟨d, _ | ⟨e, _ | ⟨f, _ | ⟨g, rest⟩⟩⟩⟩⟩⟩⟩ <;>
    simp_all

theorem parsePasswdLine_short (l : List Char) (h : (l.splitOn ':').length < 7) :
    ∃ k, parsePasswdLine l = Except.error (.PasswdIllegal k) := by
  unfold parsePasswdLine
  rcases hs : l.splitOn ':' with _ | ⟨a, _ | ⟨b, _ | ⟨c, _ | ⟨d, _ | ⟨e, _ | ⟨f, _ | ⟨g, rest⟩⟩⟩⟩⟩⟩⟩
  · exact ⟨.Username, rfl⟩
  · exact ⟨.Time, rfl⟩
  · exact ⟨.Uid, rfl⟩
  · exact ⟨.Gid, rfl⟩
  · exact ⟨.Fullname, rfl⟩
  · exact ⟨.Home, rfl⟩
  · exact ⟨.LoginShell, rfl⟩
  · rw [hs] at h
    simp only [List.length_cons] at h
    omega

theorem parsePasswdLine_error_shape (l : List Char) (e : UserError)
    (h : parsePasswdLine l = Except.error e) : ∃ k, e = .PasswdIllegal k := by
  unfold parsePasswdLine at h
  rcases hs : l.splitOn ':' with _ | ⟨a, _ | ⟨b, _ | ⟨c, _ | ⟨d, _ | ⟨e2, _ | ⟨f, _ | ⟨g, rest⟩⟩⟩⟩⟩⟩⟩ <;>
      rw [hs] at h
  · injection h with h1; exact ⟨.Username, h1.symm⟩
  · injection h with h1; exact ⟨.Time, h1.symm⟩
  · injection h with h1; exact ⟨.Uid, h1.symm⟩
  · injection h with h1; exact ⟨.Gid, h1.symm⟩
  · injection h with h1; exact ⟨.Fullname, h1.symm⟩
  · injection h with h1; exact ⟨.Home, h1.symm⟩
  · injection h with h1; exact ⟨.LoginShell, h1.symm⟩
  · exact absurd h (by simp)

theorem collectPasswd_error_of_bad (lines : List (List Char)) (l : List Char)
    (hl : l ∈ lines) (hb : isBlank l = false)
    (hshort : (l.splitOn ':').length < 7) :
    ∃ k, collectPasswd lines = Except.error (.PasswdIllegal k) := by
  induction lines with
  | nil => exact absurd hl (by simp)
  | cons l1 rest ih =>
    rw [List.mem_cons] at hl
    rw [collectPasswd]
    by_cases hb1 : isBlank l1 = true
    · rw [if_pos hb1]
      rcases hl with rfl | hl
      · rw [hb1] at hb; exact absurd hb (by simp)
      · exact ih hl
    · rw [if_neg hb1]
      cases hp : parsePasswdLine l1 with
      | error e =>
        obtain ⟨k, hk⟩ := parsePasswdLine_error_shape l1 e hp
        exact ⟨k, by simp [hk]⟩
      | ok p =>
        rcases hl with rfl | hl
        · obtain ⟨k, hk⟩ := parsePasswdLine_short l hshort
          rw [hp] at hk
          exact absurd hk (by simp)
        · obtain ⟨k, hk⟩ := ih hl
          exact ⟨k, by simp [hk]⟩

theorem collectPasswd_ok_join (fn u : List Char) (lines : List (List Char))
    (hall : ∀ l ∈ lines, isBlank l = true ∨ (l.splitOn ':').length = 7) :
    ∃ v, collectPasswd lines = Except.ok v ∧
      ((v.map (mutateRec fn u)).map entryChars).flatten =
        ((lines.filter fun l => !isBlank l).map (rewriteLine fn u)).flatten := by
  induction lines with
  | nil => exact ⟨[], rfl, rfl⟩
  | cons l rest ih =>
    have hall2 : ∀ l2 ∈ rest, isBlank l2 = true ∨ (l2.splitOn ':').length = 7 :=
      fun l2 h2 => hall l2 (List.mem_cons_of_mem l h2)
    obtain ⟨v, hv, hjoin⟩ := ih hall2
    by_cases hb : isBlank l = true
    · refine ⟨v, ?_, ?_⟩
      · rw [collectPasswd, if_pos hb, hv]
      · rw [List.filter_cons, if_neg (by simp [hb])]
        exact hjoin
    · have hlen : (l.splitOn ':').length = 7 := by
        rcases hall l (List.mem_cons_self l rest) with h | h
        · exact absurd h hb
        · exact h
      obtain ⟨a, b, c, d, e, f, g, hs⟩ := exists_seven _ hlen
      have hparse : parsePasswdLine l = Except.ok ⟨a, b, c, d, e, f, g⟩ := by
        unfold parsePasswdLine
        rw [hs]
      refine ⟨⟨a, b, c, d, e, f, g⟩ :: v, ?_, ?_⟩
      · rw [collectPasswd, if_neg hb, hparse, hv]
      · rw [List.filter_cons, if_pos (by simp [hb])]
        simp only [List.map_cons, List.flatten_cons]
        rw [hjoin]
        congr 1
        rw [rewriteLine, hs]
        dsimp only
        by_cases ha : (a == u) = true
        · rw [if_pos ha]
          simp [mutateRec, entryChars, ha]
        · rw [if_neg ha]
          have hmut : mutateRec fn u ⟨a, b, c, d, e, f, g⟩ = ⟨a, b, c, d, e, f, g⟩ := by
            simp [mutateRec, ha]
          rw [hmut]
          simp only [entryChars]
          have hround : List.intercalate [':'] (l.splitOn ':') = l :=
            List.intercalate_splitOn l ':'
          rw [hs] at hround
          rw [hround]

/-- C10 counterexample: the whitespace-only line `" "` is a non-empty line
with fewer than seven colon-separated fields, yet `set_full_name` drops it
and succeeds instead of returning a `PasswdIllegal` error as the claim
states. -/
theorem set_full_name_blank_line_not_error :
    set_full_name [' ', 'F'] ['u'] [[' ']] = Except.ok [] ∧
    ([' '] : List Char) ≠ [] ∧ ((([' '] : List Char).splitOn ':').length < 7) := by
  refine ⟨rfl, by simp, by decide⟩

/-- C10 (amended): `set_full_name(full_name, username, lines)` returns a
`FullNameIllegal` error when the full name contains ':' or a newline;
otherwise it drops every blank line (whitespace-only, not only empty), and
returns a `PasswdIllegal` error when some non-blank line has fewer than
seven colon-separated fields; when every line is blank or has exactly seven
fields, it succeeds and the output is, line for line in order, the original
non-blank line reproduced character-for-character (plus its terminating
newline) — except that lines whose first field equals the username have
exactly their 5th field replaced by the full name. -/
theorem set_full_name_spec :
    (∀ fn u lines, (fn.contains ':' || fn.contains '\n') = true →
       set_full_name fn u lines = Except.error (.FullNameIllegal fn)) ∧
    (∀ fn u lines l, (fn.contains ':' || fn.contains '\n') = false →
       l ∈ lines → isBlank l = false → (l.splitOn ':').length < 7 →
       ∃ k, set_full_name fn u lines = Except.error (.PasswdIllegal k)) ∧
    (∀ fn u lines, (fn.contains ':' || fn.contains '\n') = false →
       (∀ l ∈ lines, isBlank l = true ∨ (l.splitOn ':').length = 7) →
       set_full_name fn u lines =
         Except.ok (((lines.filter fun l => !isBlank l).map (rewriteLine fn u)).flatten)) := by
  refine ⟨?_, ?_, ?_⟩
  · intro fn u lines h
    rw [set_full_name, if_pos h]
  · intro fn u lines l h hl hb hshort
    obtain ⟨k, hk⟩ := collectPasswd_error_of_bad lines l hl hb hshort
    refine ⟨k, ?_⟩
    rw [set_full_name, if_neg (by rw [h]; exact Bool.false_ne_true), hk]
  · intro fn u lines h hall
    obtain ⟨v, hv, hjoin⟩ := collectPasswd_ok_join fn u lines hall
    rw [set_full_name, if_neg (by rw [h]; exact Bool.false_ne_true), hv]
    dsimp only
    rw [foldl_append_eq_flatten, List.nil_append, hjoin]

/-- C10 witness: a two-line passwd file (root plus the target user) where
only the target user's 5th field changes and the root line is reproduced
verbatim. -/
theorem set_full_name_spec_witness :
    set_full_name ['F', 'o', 'o'] ['u']
        [['r', ':', 'x', ':', '0', ':', '0', ':', 'r', ':', 'h', ':', 's'],
         ['u', ':', 'x', ':', '1', ':', '1', ':', 'o', ':', 'h', ':', 's']] =
      Except.ok
        (['r', ':', 'x', ':', '0', ':', '0', ':', 'r', ':', 'h', ':', 's', '\n'] ++
         ['u', ':', 'x', ':', '1', ':', '1', ':', 'F', 'o', 'o', ':', 'h', ':', 's', '\n']) := by
  have h := set_full_name_spec.2.2 ['F', 'o', 'o'] ['u']
    [['r', ':', 'x', ':', '0', ':', '0', ':', 'r', ':', 'h', ':', 's'],
     ['u', ':', 'x', ':', '1', ':', '1', ':', 'o', ':', 'h', ':', 's']]
    (by decide) (by decide)
  rw [h]
  rfl

/-! ## install/src/genfstab.rs -/

/-- Embedding of `PartitionSource` (partition_identity, as consumed by
genfstab.rs). -/
inductive PartitionSource where
  | ID | Label | PartLabel | PartUUID | PathSrc | UUID
deriving DecidableEq, Repr

/-- Embedding of `PartitionID`. -/
structure PartitionID where
  variant : PartitionSource
  id : String
deriving DecidableEq, Repr

/-- Embedding of the `FileSystem` enum (install/src/genfstab.rs). -/
inductive FileSystem where
  | Btrfs | Exfat | Ext2 | Ext3 | Ext4 | F2fs | Fat16 | Fat32
  | Ntfs | Swap | Xfs | Luks | Lvm
deriving DecidableEq, Repr

/-- The `From<FileSystem> for &'static str` impl. -/
def fileSystemStr : FileSystem → String
  | .Btrfs => "btrfs"
  | .Exfat => "exfat"
  | .Ext2 => "ext2"
  | .Ext3 => "ext3"
  | .Ext4 => "ext4"
  | .F2fs => "f2fs"
  | .Fat16 => "fat16"
  | .Fat32 => "fat32"
  | .Ntfs => "ntfs"
  | .Swap => "linux-swap(v1)"
  | .Xfs => "xfs"
  | .Lvm => "lvm"
  | .Luks => "luks"

/-- Embedding of `GenfstabError`. -/
inductive GenfstabError where
  | UnsupportedFileSystem : String → GenfstabError
  | UUIDErr : String → GenfstabError
  | OperateFstabFile : GenfstabError
deriving DecidableEq, Repr

/-- Embedding of `BlockInfo` (install/src/genfstab.rs). -/
structure BlockInfo where
  uid : PartitionID
  mount : Option String
  fs : String
  options : String
  dump : Bool
  pass : Bool
deriving DecidableEq, Repr

/-- Embedding of `BlockInfo::new`: the pass flag is the comparison of the
target with `/`; swap entries get no mount point; FAT maps to `vfat`; the
`.expect` panic on a missing target for a non-swap filesystem is modelled as
`none`. -/
def BlockInfo.new (uid : PartitionID) (fs : FileSystem) (target : Option String)
    (options : String) : Option BlockInfo :=
  let pass := target == some "/"
  match (if fs == FileSystem.Swap then some none
         else match target with
              | some t => some (some t)
              | none => none : Option (Option String)) with
  | none => none
  | some m =>
    some { uid := uid, mount := m,
           fs := match fs with
                 | .Fat16 | .Fat32 => "vfat"
                 | .Swap => "swap"
                 | _ => fileSystemStr fs,
           options := options, dump := false, pass := pass }

/-- The `mount_variant` table of `BlockInfo::write_entry`. -/
def mountVariantPrefix : PartitionSource → String
  | .ID => "ID="
  | .Label => "LABEL="
  | .PartLabel => "PARTLABEL="
  | .PartUUID => "PARTUUID="
  | .PathSrc => ""
  | .UUID => "UUID="

/-- Embedding of `BlockInfo::write_entry` (the pushes onto the `OsString`
buffer) together with `BlockInfo::mount` (`none` for a missing mount
point). -/
def writeEntry (bi : BlockInfo) : String :=
  mountVariantPrefix bi.uid.variant ++ bi.uid.id ++ "  " ++
    (bi.mount.getD "none") ++ "  " ++ bi.fs ++ "  " ++ bi.options ++ "  " ++
    (if bi.dump then "1" else "0") ++ "  " ++ (if bi.pass then "1" else "0") ++ "\n"

/-- The blkid lookups behind `PartitionID::get_partuuid` /
`PartitionID::get_uuid`, provided by the environment. -/
structure IdEnv where
  partuuid : String → Option String
  uuid : String → Option String

/-- Embedding of `BlockInfo::get_partition_id`: FAT partitions use
PARTUUID, everything else UUID. -/
def get_partition_id (env : IdEnv) (path : String) (fs : FileSystem) :
    Option PartitionID :=
  if fs == FileSystem.Fat16 || fs == FileSystem.Fat32 then
    (env.partuuid path).map fun s => ⟨.PartUUID, s⟩
  else
    (env.uuid path).map fun s => ⟨.UUID, s⟩

/-- Embedding of `fstab_entries` (install/src/genfstab.rs): map the fs-type
string to a `FileSystem` and its mount options, look up the partition id,
build the `BlockInfo` and serialize one line. The outer `Option` models the
panic inside `BlockInfo::new`. -/
def fstab_entries (env : IdEnv) (devicePath : String) (fsType : String)
    (mountPath : Option String) : Option (Except GenfstabError String) :=
  match (match fsType with
         | "vfat" | "fat16" | "fat32" => some (FileSystem.Fat32, "defaults,nofail")
         | "ext4" => some (FileSystem.Ext4, "defaults")
         | "btrfs" => some (FileSystem.Btrfs, "defaults")
         | "xfs" => some (FileSystem.Xfs, "defaults")
         | "f2fs" => some (FileSystem.F2fs, "defaults")
         | "swap" => some (FileSystem.Swap, "sw")
         | _ => none : Option (FileSystem × String)) with
  | none => some (Except.error (.UnsupportedFileSystem fsType))
  | some fsOption =>
    match get_partition_id env devicePath fsOption.1 with
    | none => some (Except.error (.UUIDErr devicePath))
    | some rootId =>
      (BlockInfo.new rootId fsOption.1 mountPath fsOption.2).map fun bi =>
        Except.ok (writeEntry bi)

/-- Embedding of the line written by `write_swap_entry_to_fstab`
(install/src/genfstab.rs). -/
def write_swap_entry_line : String := "/swapfile none swap defaults,nofail 0 0\n"

/-- A concrete blkid environment for the counterexample. -/
def idEnv0 : IdEnv :=
  ⟨fun p => if p == "/dev/sda1" then some "ABCD" else none, fun _ => none⟩

/-- C2 counterexample: for a FAT EFI partition mounted at `/efi` the
generated line's pass column is `0` — the line the claim predicts, with
pass column `2`, is a different string; and the `/swapfile` entry written
to /etc/fstab carries options `defaults,nofail`, not the `sw` the claim
assigns to the swap entry. -/
theorem fstab_pass_column_counterexample :
    fstab_entries idEnv0 "/dev/sda1" "vfat" (some "/efi") =
      some (Except.ok "PARTUUID=ABCD  /efi  vfat  defaults,nofail  0  0\n") ∧
    ("PARTUUID=ABCD  /efi  vfat  defaults,nofail  0  0\n" : String) ≠
      "PARTUUID=ABCD  /efi  vfat  defaults,nofail  0  2\n" ∧
    write_swap_entry_line = "/swapfile none swap defaults,nofail 0 0\n" ∧
    ("/swapfile none swap defaults,nofail 0 0\n" : String) ≠
      "/swapfile none swap sw 0 0\n" := by
  refine ⟨rfl, by decide, rfl, by decide⟩

/-- C2 (amended): the generated line carries `defaults` for
ext4/btrfs/xfs/f2fs, `defaults,nofail` for FAT, and (inside
`fstab_entries`) `sw` for swap; the pass column is `1` when the mount point
is `/` and `0` for every other mount point — `0` also for a FAT EFI
partition and for swap; the swap line actually appended to /etc/fstab by
`write_swap_entry_to_fstab` has source `/swapfile` with options
`defaults,nofail`, dump 0 and pass 0. -/
theorem fstab_entries_spec :
    (∀ env dev mnt id ft, ft ∈ ["ext4", "btrfs", "xfs", "f2fs"] →
       (IdEnv.uuid env) dev = some id →
       fstab_entries env dev ft (some mnt) =
         some (Except.ok (writeEntry
           { uid := ⟨.UUID, id⟩, mount := some mnt, fs := ft,
             options := "defaults", dump := false, pass := mnt == "/" }))) ∧
    (∀ env dev mnt id ft, ft ∈ ["vfat", "fat16", "fat32"] →
       (IdEnv.partuuid env) dev = some id →
       fstab_entries env dev ft (some mnt) =
         some (Except.ok (writeEntry
           { uid := ⟨.PartUUID, id⟩, mount := some mnt, fs := "vfat",
             options := "defaults,nofail", dump := false, pass := mnt == "/" }))) ∧
    (∀ env dev id mnt, (IdEnv.uuid env) dev = some id →
       fstab_entries env dev "swap" mnt =
         some (Except.ok (writeEntry
           { uid := ⟨.UUID, id⟩, mount := none, fs := "swap",
             options := "sw", dump := false, pass := mnt == some "/" }))) ∧
    write_swap_entry_line = "/swapfile none swap defaults,nofail 0 0\n" := by
  refine ⟨?_, ?_, ?_, rfl⟩
  · intro env dev mnt id ft hft hid
    fin_cases hft <;>
      simp [fstab_entries, get_partition_id, hid, BlockInfo.new, fileSystemStr]
  · intro env dev mnt id ft hft hid
    fin_cases hft <;>
      simp [fstab_entries, get_partition_id, hid, BlockInfo.new]
  · intro env dev id mnt hid
    simp [fstab_entries, get_partition_id, hid, BlockInfo.new]

/-- C2 witness: a root ext4 partition mounted at `/` gets `defaults` and
pass 1; the serialized line is shown in full. -/
theorem fstab_entries_spec_witness :
    fstab_entries ⟨fun _ => none, fun p => if p == "/dev/sda2" then some "R" else none⟩
        "/dev/sda2" "ext4" (some "/") =
      some (Except.ok "UUID=R  /  ext4  defaults  0  1\n") := by
  have h := fstab_entries_spec.1
    ⟨fun _ => none, fun p => if p == "/dev/sda2" then some "R" else none⟩
    "/dev/sda2" "/" "R" "ext4" (by simp) rfl
  rw [h]
  rfl

/-! ## install/src/swap.rs: `get_recommend_swap_size`

Floating-point arithmetic is idealised over the reals; `f64::round` is
round-half-up, which agrees with Rust's round-half-away-from-zero on the
positive values that occur here. -/

/-- The `res` binding of `get_recommend_swap_size` (install/src/swap.rs):
`m * 2` for `m ≤ 1`, otherwise `m` plus the ROUNDED square root of `m`. -/
noncomputable def swapRes (m : ℝ) : ℝ :=
  if m ≤ 1 then m * 2 else m + (round (Real.sqrt m) : ℤ)

/-- Embedding of `get_recommend_swap_size`: convert bytes to GiB by three
divisions by 1024, compute `res`, cap at `MAX_MEMORY = 32` GiB, return
bytes. -/
noncomputable def get_recommend_swap_size (mem : ℕ) : ℝ :=
  if 32 ≤ swapRes ((mem : ℝ) / 1024 / 1024 / 1024) then 32 * 1024 ^ 3
  else swapRes ((mem : ℝ) / 1024 / 1024 / 1024) * 1024 ^ 3

/-- The formula asserted by the claim, written from the spec's words: for
memory `m` GiB return `m*2` GiB when `m ≤ 1` and `(m + sqrt m)` GiB (no
rounding) when `m > 1`, capped at 32 GiB. -/
noncomputable def claimedRes (m : ℝ) : ℝ :=
  if m ≤ 1 then m * 2 else m + Real.sqrt m

/-- The byte-level value the claim asserts. -/
noncomputable def claimed_swap_size (mem : ℕ) : ℝ :=
  if 32 ≤ claimedRes ((mem : ℝ) / 2 ^ 30) then 32 * 2 ^ 30
  else claimedRes ((mem : ℝ) / 2 ^ 30) * 2 ^ 30

/-- The amended formula: same as the claim but with `sqrt m` rounded to the
nearest integer, the cap expressed as a minimum. -/
noncomputable def amended_swap_size (mem : ℕ) : ℝ :=
  min (swapRes ((mem : ℝ) / 2 ^ 30) * 2 ^ 30) (32 * 2 ^ 30)

theorem swap_gib_div (mem : ℕ) :
    (mem : ℝ) / 1024 / 1024 / 1024 = (mem : ℝ) / 2 ^ 30 := by
  rw [div_div, div_div]
  norm_num

theorem swap_size_eq_amended_aux (mem : ℕ) :
    get_recommend_swap_size mem = amended_swap_size mem := by
  rw [get_recommend_swap_size, amended_swap_size, swap_gib_div]
  by_cases h32 : 32 ≤ swapRes ((mem : ℝ) / 2 ^ 30)
  · rw [if_pos h32, min_eq_right]
    · norm_num
    · calc (32 : ℝ) * 2 ^ 30 ≤ swapRes ((mem : ℝ) / 2 ^ 30) * 2 ^ 30 := by
            exact mul_le_mul_of_nonneg_right h32 (by positivity)
        _ = _ := rfl
  · rw [if_neg h32, min_eq_left]
    · norm_num
    · exact mul_le_mul_of_nonneg_right (le_of_not_le h32) (by positivity)

theorem sqrt_two_facts :
    (1 : ℝ) ≤ Real.sqrt 2 ∧ Real.sqrt 2 < 3 / 2 ∧ Real.sqrt 2 ≠ 1 := by
  have h1 : (1 : ℝ) ≤ Real.sqrt 2 := by
    rw [show (1 : ℝ) = Real.sqrt 1 from Real.sqrt_one.symm]
    exact Real.sqrt_le_sqrt (by norm_num)
  have h2 : Real.sqrt 2 < 3 / 2 := by
    rw [Real.sqrt_lt' (by norm_num)]
    norm_num
  refine ⟨h1, h2, ?_⟩
  intro h
  have hsq := Real.sq_sqrt (by norm_num : (0 : ℝ) ≤ 2)
  rw [h] at hsq
  norm_num at hsq

/-- C5 counterexample: at exactly 2 GiB of memory the code returns 3 GiB
(the square root is rounded before the addition) while the claimed formula
returns `(2 + sqrt 2)` GiB. -/
theorem get_recommend_swap_size_ne_claimed :
    get_recommend_swap_size (2 ^ 31) ≠ claimed_swap_size (2 ^ 31) := by
  obtain ⟨hs1, hs2, hsne⟩ := sqrt_two_facts
  have hm : ((2 ^ 31 : ℕ) : ℝ) / 2 ^ 30 = 2 := by norm_num
  have hround : round (Real.sqrt 2) = 1 := by
    rw [round_eq, Int.floor_eq_iff]
    constructor
    · push_cast
      linarith
    · push_cast
      linarith
  have hcode : get_recommend_swap_size (2 ^ 31) = 3 * 1024 ^ 3 := by
    rw [get_recommend_swap_size, swap_gib_div, hm]
    have hres : swapRes 2 = 3 := by
      rw [swapRes, if_neg (by norm_num), hround]
      norm_num
    rw [hres, if_neg (by norm_num)]
  have hclaimed : claimed_swap_size (2 ^ 31) = (2 + Real.sqrt 2) * 2 ^ 30 := by
    rw [claimed_swap_size, hm]
    have hres : claimedRes 2 = 2 + Real.sqrt 2 := by
      rw [claimedRes, if_neg (by norm_num)]
    rw [hres, if_neg (by intro hcap; linarith)]
  intro heq
  rw [hcode, hclaimed, show (1024 : ℝ) ^ 3 = 2 ^ 30 by norm_num] at heq
  have h3 : (3 : ℝ) = 2 + Real.sqrt 2 :=
    mul_right_cancel₀ (by positivity) heq
  exact hsne (by linarith)

/-- C5 (amended): `get_recommend_swap_size(mem)` returns, in bytes, `m*2`
GiB when `m ≤ 1` and `(m + round(sqrt m))` GiB when `m > 1` — the square
root is rounded to the nearest integer before the addition — capped at 32
GiB; in particular the result never exceeds 32 GiB. -/
theorem get_recommend_swap_size_spec :
    (∀ mem, get_recommend_swap_size mem = amended_swap_size mem) ∧
    (∀ mem, get_recommend_swap_size mem ≤ 32 * 2 ^ 30) := by
  refine ⟨swap_size_eq_amended_aux, ?_⟩
  intro mem
  rw [swap_size_eq_amended_aux]
  exact min_le_right _ _

/-! ## disk/src/partition.rs: `auto_create_partitions` -/

end Deploykit
